import Mathlib

/-
Verification of the TradeStack gap-reconciliation and backfill scripts
(directory: Python fetch data).  Each definition is a shallow embedding of
one function of the repository; dates and timestamps are integers (days,
respectively seconds, since 1970-01-01 UTC), prices are rationals, and
fallible provider calls are `Except` values.
-/

namespace TradeStack

/-! ## Dates and per-ticker fetch decision (main.py, fill.py)

Dates are modelled as integer day numbers since 1970-01-01.  Adding or
subtracting `timedelta(days=1)` is adding or subtracting 1.
-/

/-- Day number of `datetime(2000, 1, 1)`, the default start date used by
`fetch_and_ingest_data` in main.py (line 150) for tickers with no stored
history. -/
def epoch2000 : Int := 10957

/-- Embedding of the per-ticker decision in `fetch_and_ingest_data`
(main.py lines 149-155): resolve the last stored timestamp (defaulting to
`datetime(2000, 1, 1)`), and issue a provider fetch over
`(lastTimestamp + 1 day, endDate)` only when `start_date < end_date`;
otherwise no fetch is issued (`none`). -/
def mainTickerFetch (lastTs : Option Int) (endDate : Int) : Option (Int × Int) :=
  let start := lastTs.getD epoch2000
  if start < endDate then some (start + 1, endDate) else none

/-- The gap implied by a last-timestamp-only store read: the dates in the
half-open-below range `(lastTs, endDate]`, i.e. `lastTs+1, ..., endDate`. -/
def gapDates (lastTs endDate : Int) : List Int :=
  (List.range (endDate - lastTs).toNat).map (fun i => lastTs + 1 + i)

/-- Embedding of the start-date computation of `main` in fill.py
(lines 263-267): the date handed to the provider fetch is
`last_update - timedelta(days=1)`, one day BEFORE the last persisted
timestamp. -/
def fillStartDate (lastUpdate : Int) : Int := lastUpdate - 1

/-! ## Timestamp normalization (fill.py `normalize_market_time`,
ytest.py `set_to_16pm_utc`)

A pandas timestamp is a wall-clock time in seconds plus an optional UTC
offset (`none` = timezone-naive).  `tz_convert('UTC').tz_localize(None)`
turns an aware timestamp into its naive UTC wall time; `floor('D')`
floors to the day boundary (towards minus infinity, matching integer
`ediv` by the positive constant 86400). -/

structure PdTimestamp where
  wall : Int
  tzOffset : Option Int
  deriving DecidableEq, Repr

/-- The naive UTC seconds of a timestamp: an aware timestamp denotes the
instant `wall - offset` in UTC; a naive one is taken as already UTC
(fill.py lines 64-65 convert only when `df['time'].dt.tz is not None`). -/
def toNaiveUtc (t : PdTimestamp) : Int :=
  match t.tzOffset with
  | none => t.wall
  | some o => t.wall - o

/-- Flooring a timestamp (seconds) to its calendar-day boundary,
as pandas `.dt.floor('D')`. -/
def floorDay (s : Int) : Int := 86400 * (s / 86400)

/-- Embedding of `normalize_market_time` (fill.py lines 60-67) applied to
one timestamp: convert to naive UTC, floor to the day, add 16 hours.
The result is a naive timestamp in seconds. -/
def normalize_market_time (t : PdTimestamp) : Int :=
  floorDay (toNaiveUtc t) + 16 * 3600

/-- The time-of-day component, in seconds, of a (naive) timestamp. -/
def timeOfDay (s : Int) : Int := s % 86400

/-! ## Row validation (fetch-stocks.py and fetch_missing_stocks.py,
`clean_and_validate_data`)

A raw provider row: a date (seconds since the Unix epoch, matching the
tz-aware `Date` column compared against `UNIX_EPOCH`) and optional OHLCV
fields, `none` standing for NaN.  Pandas comparisons against NaN are
false, so the invalid-mask combinators return `false` on `none`. -/

structure RawRow where
  date : Int
  open_ : Option ℚ
  high : Option ℚ
  low : Option ℚ
  close : Option ℚ
  volume : Option ℚ
  deriving DecidableEq, Repr

/-- Pandas-style comparison `a > b` on possibly-NaN values. -/
def optGtOpt (a b : Option ℚ) : Bool :=
  match a, b with
  | some x, some y => decide (y < x)
  | _, _ => false

/-- Pandas-style comparison `a < q` on a possibly-NaN value. -/
def optLtConst (a : Option ℚ) (q : ℚ) : Bool :=
  match a with
  | some x => decide (x < q)
  | none => false

/-- All required fields present (`dropna(subset=['Open','High','Low','Close','Volume'])`
keeps exactly these rows). -/
def allPresent (r : RawRow) : Bool :=
  r.open_.isSome && r.high.isSome && r.low.isSome && r.close.isSome && r.volume.isSome

/-- The invalid mask of both validators:
`(df['Low'] > df['High']) | (df['Close'] < 0) | (df['Volume'] < 0)`. -/
def invalidMask (r : RawRow) : Bool :=
  optGtOpt r.low r.high || optLtConst r.close 0 || optLtConst r.volume 0

/-- Embedding of `clean_and_validate_data` of fetch-stocks.py
(lines 43-67): drop rows with a missing required field, then drop rows
matching the invalid mask. -/
def FetchStocks.clean_and_validate_data (rows : List RawRow) : List RawRow :=
  (rows.filter allPresent).filter (fun r => !(invalidMask r))

/-- Embedding of `clean_and_validate_data` of fetch_missing_stocks.py
(lines 74-111): drop rows with a missing required field, then drop rows
dated before `UNIX_EPOCH` (`df = df[df['Date'] >= UNIX_EPOCH]`,
lines 93-98), then drop rows matching the invalid mask. -/
def FetchMissing.clean_and_validate_data (rows : List RawRow) : List RawRow :=
  (((rows.filter allPresent).filter (fun r => decide (0 ≤ r.date))).filter
    (fun r => !(invalidMask r)))

/-! ## Writer (fetch_missing_stocks.py `insert_ticker_data`,
main.py `ingest_batch_data`)

The store is the list of rows of the `stock_data2` table, in insertion
order; the table has no key or uniqueness constraint, so it is a plain
sequence.  A provider row carries its instant and OHLCV values; the
writer prefixes nothing and strips a leading caret from the ticker. -/

structure BarRow where
  date : Int
  open_ : ℚ
  high : ℚ
  low : ℚ
  close : ℚ
  volume : Int
  deriving DecidableEq, Repr

structure StoreRow where
  time : Int
  symbol : String
  open_ : ℚ
  high : ℚ
  low : ℚ
  close : ℚ
  volume : Int
  deriving DecidableEq, Repr

/-- Symbol normalization used by every writer in the repository:
`ticker.replace('^', '') if ticker.startswith('^') else ticker`. -/
def stripCaret (t : String) : String :=
  if t.startsWith "^" then t.replace "^" "" else t

/-- One insert tuple of `insert_ticker_data`
(fetch_missing_stocks.py lines 143-155). -/
def toStoreRow (ticker : String) (b : BarRow) : StoreRow :=
  { time := b.date, symbol := stripCaret ticker, open_ := b.open_,
    high := b.high, low := b.low, close := b.close, volume := b.volume }

/-- Embedding of `insert_ticker_data` (fetch_missing_stocks.py
lines 130-167): a batched plain `INSERT` appends one row per dataframe
row to the table, touching nothing already stored. -/
def insert_ticker_data (store : List StoreRow) (ticker : String)
    (df : List BarRow) : List StoreRow :=
  store ++ df.map (toStoreRow ticker)

/-! ## Missing-date computation and chunking (quality.py
`analyze_and_fill_gaps`) -/

/-- Embedding of the missing-date computation (quality.py lines 147-157):
the sorted list of calendar trading days not yet stored for the ticker,
`missing_dates = sorted(list(trading_days - set(ticker_dates)))`. -/
def missingDates (tradingDays storedDates : Finset Int) : List Int :=
  (tradingDays \ storedDates).sort (· ≤ ·)

/-- Slicing loop of the chunker, with the list length as structural fuel
(each step consumes at least one element when `0 < c`). -/
def dateChunksAux (c : Nat) : Nat → List α → List (List α)
  | 0, _ => []
  | _, [] => []
  | fuel + 1, l => l.take c :: dateChunksAux c fuel (l.drop c)

/-- Embedding of the date chunking (quality.py lines 164-167):
`[missing_dates[i:i + chunk_size] for i in range(0, len(missing_dates), chunk_size)]`. -/
def dateChunks (c : Nat) (l : List α) : List (List α) :=
  if c = 0 then [] else dateChunksAux c l.length l

/-! ## Ticker grouping (fill.py `fetch_historical_data_parallel`,
lines 127-146)

The greedy bucketing loop: tickers are appended to the current chunk
while they carry the same start date and the chunk is below the cap
(`chunk_size = 50` in the source); otherwise the current chunk is
flushed and a fresh chunk starts. -/

def groupLoop [DecidableEq β] (cap : Nat) :
    List (α × β) → List α → β → List (List α × β)
  | [], chunk, cur => if chunk.isEmpty then [] else [(chunk, cur)]
  | (t, s) :: rest, chunk, cur =>
    if s = cur ∧ chunk.length < cap then
      groupLoop cap rest (chunk ++ [t]) cur
    else
      (if chunk.isEmpty then [] else [(chunk, cur)]) ++ groupLoop cap rest [t] s

/-- Embedding of the chunk-building prefix of
`fetch_historical_data_parallel` (fill.py lines 127-146): the first pair
seeds the current chunk and start date (the `current_start_date is None`
branch), then `groupLoop` runs the loop body. -/
def groupTickers [DecidableEq β] (cap : Nat) : List (α × β) → List (List α × β)
  | [] => []
  | (t, s) :: rest => groupLoop cap rest [t] s

/-! ## Retry and chunk-fetch control flow (fill.py lines 38-57, 149-208)

A fallible external call is an oracle from the attempt number to the
outcome of that attempt. -/

/-- Tenacity `retry(..., stop=stop_after_attempt(3))` as configured on
`fetch_tickers_from_db` (fill.py line 38): consult the oracle at most
three times, stopping at the first success, and surface the final error
when all three attempts fail. -/
def retryStop3 {E A : Type} (f : Nat → Except E A) : Except E A :=
  match f 0 with
  | Except.ok a => Except.ok a
  | Except.error _ =>
    match f 1 with
    | Except.ok a => Except.ok a
    | Except.error _ => f 2

/-- Embedding of `fetch_chunk` (fill.py lines 149-190): exactly one
provider attempt; any exception is caught and the chunk yields no rows
(an empty dataframe is returned, and no retry decorator is applied). -/
def fetch_chunk {E R : Type} (provider : Nat → Except E (List R)) : List R :=
  match provider 0 with
  | Except.ok rows => rows
  | Except.error _ => []

/-- Embedding of the collection loop of `fetch_historical_data_parallel`
(fill.py lines 192-208): every chunk contributes its fetched rows,
failed or empty chunks contribute nothing, and all results are
concatenated. -/
def collect_chunks {E R : Type} (ps : List (Nat → Except E (List R))) : List R :=
  (ps.map fetch_chunk).flatten

/-- A provider that fails transiently on the first attempt and succeeds
from the second attempt on. -/
def flakyProvider : Nat → Except Unit (List Nat) :=
  fun n => if n = 0 then Except.error () else Except.ok [1]

/-- A provider agreeing with `flakyProvider` on the first three attempts
and differing afterwards. -/
def cappedProvider : Nat → Except Unit (List Nat) :=
  fun n => if n < 3 then flakyProvider n else Except.ok [99]

/-- A provider failing on the first two attempts and succeeding on the
third. -/
def twiceFailing : Nat → Except Unit Nat :=
  fun n => if n ≤ 1 then Except.error () else Except.ok 7

/-- A provider succeeding immediately with one row. -/
def goodP1 : Nat → Except Unit (List Nat) := fun _ => Except.ok [1]

/-- A second provider succeeding immediately with one row. -/
def goodP2 : Nat → Except Unit (List Nat) := fun _ => Except.ok [2]

/-- A provider failing on every attempt. -/
def badP : Nat → Except Unit (List Nat) := fun _ => Except.error ()

/-- A row dated one day before the Unix epoch with every required field
present and all value invariants satisfied. -/
def preEpochRow : RawRow :=
  { date := -86400, open_ := some 1, high := some 2, low := some 1,
    close := some 1, volume := some 3 }

/-- A fully present valid row dated well after the epoch. -/
def goodRow : RawRow :=
  { date := 8640000, open_ := some 1, high := some 2, low := some 1,
    close := some 1, volume := some 3 }

/-! ## Theorems -/

lemma dateChunksAux_flatten {α : Type} (c : Nat) (hc : 0 < c) :
    ∀ (fuel : Nat) (l : List α), l.length ≤ fuel →
      (dateChunksAux c fuel l).flatten = l := by
  intro fuel
  induction fuel with
  | zero =>
    intro l hl
    have hnil : l = [] := List.length_eq_zero.mp (Nat.le_zero.mp hl)
    simp [hnil, dateChunksAux]
  | succ n ih =>
    intro l hl
    cases l with
    | nil => simp [dateChunksAux]
    | cons a t =>
      simp only [dateChunksAux, List.flatten_cons]
      rw [ih ((a :: t).drop c)
        (by simp only [List.length_drop, List.length_cons] at hl ⊢; omega)]
      exact List.take_append_drop c (a :: t)

lemma dateChunks_flatten {α : Type} (c : Nat) (hc : 0 < c) (l : List α) :
    (dateChunks c l).flatten = l := by
  have hc0 : ¬ c = 0 := by omega
  simp only [dateChunks, if_neg hc0]
  exact dateChunksAux_flatten c hc l.length l le_rfl

lemma dateChunks_disjoint {α : Type} (c : Nat) (hc : 0 < c) (l : List α)
    (hnd : l.Nodup) : List.Pairwise List.Disjoint (dateChunks c l) := by
  have hf : (dateChunks c l).flatten.Nodup := by
    rw [dateChunks_flatten c hc l]; exact hnd
  exact (List.nodup_flatten.mp hf).2

lemma groupLoop_tickers {α β : Type} [DecidableEq β] (cap : Nat) :
    ∀ (rest : List (α × β)) (chunk : List α) (cur : β),
      ((groupLoop cap rest chunk cur).map Prod.fst).flatten =
        chunk ++ rest.map Prod.fst := by
  intro rest
  induction rest with
  | nil =>
    intro chunk cur
    by_cases hc : chunk = []
    · simp [groupLoop, hc]
    · simp [groupLoop, hc]
  | cons p rest ih =>
    intro chunk cur
    obtain ⟨t, s⟩ := p
    simp only [groupLoop]
    by_cases hcond : s = cur ∧ chunk.length < cap
    · rw [if_pos hcond, ih]
      simp
    · rw [if_neg hcond]
      by_cases hc : chunk = []
      · simp [hc, ih]
      · simp [hc, ih]

lemma groupLoop_mem {α β : Type} [DecidableEq β] (cap : Nat)
    (P : α → β → Prop) (hcap : 0 < cap) :
    ∀ (rest : List (α × β)) (chunk : List α) (cur : β),
      (∀ t ∈ chunk, P t cur) → (∀ p ∈ rest, P p.1 p.2) →
      chunk.length ≤ cap →
      ∀ g s, (g, s) ∈ groupLoop cap rest chunk cur →
        (∀ t ∈ g, P t s) ∧ g.length ≤ cap := by
  intro rest
  induction rest with
  | nil =>
    intro chunk cur hchunk _ hlen g s hg
    by_cases hc : chunk = []
    · subst hc
      simp [groupLoop] at hg
    · have hce : chunk.isEmpty = false := List.isEmpty_eq_false.mpr hc
      simp only [groupLoop, hce, Bool.false_eq_true, if_false,
        List.mem_singleton, Prod.mk.injEq] at hg
      obtain ⟨hg1, hg2⟩ := hg
      subst hg1; subst hg2
      exact ⟨hchunk, hlen⟩
  | cons p rest ih =>
    intro chunk cur hchunk hrest hlen g s hg
    obtain ⟨t, s'⟩ := p
    have hhead : P t s' := hrest (t, s') (List.mem_cons_self _ _)
    have htail : ∀ q ∈ rest, P q.1 q.2 :=
      fun q hq => hrest q (List.mem_cons_of_mem _ hq)
    simp only [groupLoop] at hg
    by_cases hcond : s' = cur ∧ chunk.length < cap
    · rw [if_pos hcond] at hg
      refine ih (chunk ++ [t]) cur ?_ htail ?_ g s hg
      · intro x hx
        rcases List.mem_append.mp hx with hx | hx
        · exact hchunk x hx
        · have hx : x = t := List.mem_singleton.mp hx
          subst hx
          exact hcond.1 ▸ hhead
      · simp only [List.length_append, List.length_singleton]
        omega
    · rw [if_neg hcond] at hg
      rcases List.mem_append.mp hg with hflush | htl
      · by_cases hc : chunk = []
        · subst hc
          simp at hflush
        · have hce : chunk.isEmpty = false := List.isEmpty_eq_false.mpr hc
          simp only [hce, Bool.false_eq_true, if_false, List.mem_singleton,
            Prod.mk.injEq] at hflush
          obtain ⟨hg1, hg2⟩ := hflush
          subst hg1; subst hg2
          exact ⟨hchunk, hlen⟩
      · refine ih [t] s' ?_ htail ?_ g s htl
        · intro x hx
          have hx : x = t := List.mem_singleton.mp hx
          subst hx
          exact hhead
        · simpa using hcap

/-- C1: if the stored last timestamp is at or after the as-of end date,
the computed gap is empty and `fetch_and_ingest_data` issues no provider
fetch for that ticker (main.py lines 149-155 guard with
`start_date < end_date`). -/
theorem skip_ticker_when_up_to_date (lastTs endDate : Int)
    (h : endDate ≤ lastTs) :
    mainTickerFetch (some lastTs) endDate = none ∧ gapDates lastTs endDate = [] := by
  constructor
  · simp only [mainTickerFetch, Option.getD_some, ite_eq_right_iff]
    intro hlt
    omega
  · have h0 : (endDate - lastTs).toNat = 0 := by omega
    simp [gapDates, h0]

/-- Witness for C1 at a concrete input: last timestamp day 20000,
as-of day 20000. -/
theorem skip_ticker_when_up_to_date_witness :
    mainTickerFetch (some 20000) 20000 = none ∧ gapDates 20000 20000 = [] :=
  skip_ticker_when_up_to_date 20000 20000 (by decide)

/-- C2 as stated is refuted on the fill.py path: for a ticker whose last
persisted day is 20000, `main` (fill.py lines 263-267) asks the provider
to start at `fillStartDate 20000 = 19999`, a date at (indeed before) the
last persisted timestamp, not at `lastTimestamp + 1 = 20001`. -/
theorem fill_start_refutes_plus_one_day :
    fillStartDate 20000 = 19999 ∧ fillStartDate 20000 ≤ 20000 ∧
      fillStartDate 20000 ≠ 20000 + 1 := by
  refine ⟨rfl, by decide, by decide⟩

/-- C2 amended: on the main.py path every issued fetch range starts
exactly at `lastTimestamp + 1` and ends at the as-of date, so no date at
or before the last timestamp is requested there; the fill.py path instead
always requests from `lastTimestamp - 1`, one day before the last
persisted timestamp. -/
theorem fetch_range_starts_after_last (lastTs endDate s e : Int)
    (h : mainTickerFetch (some lastTs) endDate = some (s, e)) :
    (s = lastTs + 1 ∧ e = endDate ∧ ∀ d : Int, s ≤ d → lastTs < d) ∧
      ∀ lu : Int, fillStartDate lu = lu - 1 ∧ fillStartDate lu < lu := by
  constructor
  · simp only [mainTickerFetch, Option.getD_some] at h
    by_cases hlt : lastTs < endDate
    · simp only [hlt, if_pos, Option.some.injEq, Prod.mk.injEq] at h
      obtain ⟨hs, he⟩ := h
      exact ⟨hs.symm, he.symm, fun d hd => by omega⟩
    · simp [hlt] at h
  · intro lu
    exact ⟨rfl, by simp [fillStartDate]⟩

/-- Witness for C2's amended theorem at a concrete input: last day 100,
as-of day 105 produce the range (101, 105). -/
theorem fetch_range_starts_after_last_witness :
    (∃ s e : Int, mainTickerFetch (some 100) 105 = some (s, e)) ∧
      (101 = (100 : Int) + 1 ∧ 105 = (105 : Int) ∧
        ∀ d : Int, 101 ≤ d → 100 < d) := by
  refine ⟨⟨101, 105, by decide⟩, ?_⟩
  have h := fetch_range_starts_after_last 100 105 101 105 (by decide)
  exact h.1

/-- C6: every timestamp produced by `normalize_market_time` has
time-of-day exactly 16:00:00 (57600 seconds): the input is converted to
naive UTC, floored to its calendar day, and anchored at the fixed
market-close hour (fill.py line 66, ytest.py lines 13-18). -/
theorem normalize_market_time_anchor (t : PdTimestamp) :
    timeOfDay (normalize_market_time t) = 16 * 3600 := by
  simp only [timeOfDay, normalize_market_time, floorDay]
  omega

/-- C9: `normalize_market_time` is idempotent: re-normalizing an already
normalized (naive) timestamp returns it unchanged. -/
theorem normalize_market_time_idem (t : PdTimestamp) :
    normalize_market_time ⟨normalize_market_time t, none⟩ =
      normalize_market_time t := by
  simp only [normalize_market_time, toNaiveUtc, floorDay]
  omega

lemma allPresent_of_some {r : RawRow} {op hi lo cl vol : ℚ}
    (hop : r.open_ = some op) (hhi : r.high = some hi) (hlo : r.low = some lo)
    (hcl : r.close = some cl) (hvol : r.volume = some vol) :
    allPresent r = true := by
  simp [allPresent, hop, hhi, hlo, hcl, hvol]

lemma invalidMask_of_some {r : RawRow} {op hi lo cl vol : ℚ}
    (_hop : r.open_ = some op) (hhi : r.high = some hi) (hlo : r.low = some lo)
    (hcl : r.close = some cl) (hvol : r.volume = some vol) :
    invalidMask r = (decide (hi < lo) || decide (cl < 0) || decide (vol < 0)) := by
  simp [invalidMask, optGtOpt, optLtConst, hhi, hlo, hcl, hvol]

/-- C5 as stated is refuted on fetch_missing_stocks.py: `preEpochRow` has
every required field present and violates none of `low > high`,
`close < 0`, `volume < 0`, yet its validator drops it (the pre-1970
filter), so "every other such row is accepted" fails. -/
theorem validator_rejects_valid_pre_epoch_row :
    allPresent preEpochRow = true ∧ invalidMask preEpochRow = false ∧
      FetchMissing.clean_and_validate_data [preEpochRow] = [] := by
  refine ⟨by decide, by decide, ?_⟩
  simp [FetchMissing.clean_and_validate_data, preEpochRow,
    allPresent, invalidMask, optGtOpt, optLtConst, List.filter]

/-- C5 amended: for a row with all required fields present, the
fetch-stocks.py validator accepts it iff none of `low > high`,
`close < 0`, `volume < 0` holds, while the fetch_missing_stocks.py
validator additionally requires the date to be at or after the Unix
epoch. -/
theorem validator_accepts_iff (rows : List RawRow) (r : RawRow)
    (op hi lo cl vol : ℚ)
    (hop : r.open_ = some op) (hhi : r.high = some hi) (hlo : r.low = some lo)
    (hcl : r.close = some cl) (hvol : r.volume = some vol) :
    (r ∈ FetchStocks.clean_and_validate_data rows ↔
      r ∈ rows ∧ ¬(hi < lo ∨ cl < 0 ∨ vol < 0)) ∧
    (r ∈ FetchMissing.clean_and_validate_data rows ↔
      r ∈ rows ∧ 0 ≤ r.date ∧ ¬(hi < lo ∨ cl < 0 ∨ vol < 0)) := by
  have hall := allPresent_of_some hop hhi hlo hcl hvol
  have hmask := invalidMask_of_some hop hhi hlo hcl hvol
  constructor
  · simp only [FetchStocks.clean_and_validate_data, List.mem_filter, hall,
      hmask, and_true, Bool.not_or, Bool.and_eq_true, Bool.not_eq_true',
      decide_eq_false_iff_not]
    tauto
  · simp only [FetchMissing.clean_and_validate_data, List.mem_filter, hall,
      hmask, and_true, Bool.not_or, Bool.and_eq_true, Bool.not_eq_true',
      decide_eq_false_iff_not, decide_eq_true_eq]
    tauto

/-- Witness for C5's amended theorem at a concrete accepted row. -/
theorem validator_accepts_iff_witness :
    (goodRow ∈ FetchStocks.clean_and_validate_data [goodRow] ↔
      goodRow ∈ [goodRow] ∧ ¬((2 : ℚ) < 1 ∨ (1 : ℚ) < 0 ∨ (3 : ℚ) < 0)) ∧
    (goodRow ∈ FetchMissing.clean_and_validate_data [goodRow] ↔
      goodRow ∈ [goodRow] ∧ 0 ≤ goodRow.date ∧
        ¬((2 : ℚ) < 1 ∨ (1 : ℚ) < 0 ∨ (3 : ℚ) < 0)) :=
  validator_accepts_iff [goodRow] goodRow 1 2 1 1 3 rfl rfl rfl rfl rfl

/-- C10: every row surviving `clean_and_validate_data` of
fetch_missing_stocks.py is dated at or after the Unix epoch
(`df = df[df['Date'] >= UNIX_EPOCH]`, lines 93-98). -/
theorem missing_validator_output_post_epoch (rows : List RawRow) (r : RawRow)
    (h : r ∈ FetchMissing.clean_and_validate_data rows) : 0 ≤ r.date := by
  simp only [FetchMissing.clean_and_validate_data, List.mem_filter,
    decide_eq_true_eq] at h
  exact h.1.2

/-- Witness for C10 at a concrete input. -/
theorem missing_validator_output_post_epoch_witness : 0 ≤ goodRow.date :=
  missing_validator_output_post_epoch [goodRow] goodRow (by decide)

/-- C8: the writer is append-only with no uniqueness constraint on
(ticker, time): inserting the same dataframe twice appends its rows
twice (every row's multiplicity in the store grows by exactly two
copies), and the rows already stored are left unchanged in place. -/
theorem writer_append_only (store : List StoreRow) (ticker : String)
    (df : List BarRow) :
    (insert_ticker_data (insert_ticker_data store ticker df) ticker df =
      store ++ (df.map (toStoreRow ticker) ++ df.map (toStoreRow ticker))) ∧
    (∀ r : StoreRow,
      (insert_ticker_data (insert_ticker_data store ticker df) ticker df).count r =
        store.count r + 2 * (df.map (toStoreRow ticker)).count r) ∧
    ((insert_ticker_data store ticker df).take store.length = store) := by
  refine ⟨by simp [insert_ticker_data], fun r => ?_, ?_⟩
  · simp only [insert_ticker_data, List.count_append]
    omega
  · simp [insert_ticker_data, List.take_left]

/-- C3: the chunker of quality.py partitions each ticker's missing dates
exactly: the chunks concatenate back to the missing-date list, a date is
covered by some chunk precisely when it is missing, the chunks are
pairwise disjoint (no date dropped, no date duplicated), and the ticker
grouping of fill.py likewise preserves every scheduled ticker in order. -/
theorem schedule_partitions_missing_dates (tradingDays storedDates : Finset Int)
    (c : Nat) (hc : 0 < c) :
    ((dateChunks c (missingDates tradingDays storedDates)).flatten =
      missingDates tradingDays storedDates) ∧
    (∀ x : Int,
      (∃ ch ∈ dateChunks c (missingDates tradingDays storedDates), x ∈ ch) ↔
        x ∈ missingDates tradingDays storedDates) ∧
    List.Pairwise List.Disjoint
      (dateChunks c (missingDates tradingDays storedDates)) ∧
    (∀ (cap : Nat) (tl : List (Nat × Nat)),
      ((groupTickers cap tl).map Prod.fst).flatten = tl.map Prod.fst) := by
  have hnd : (missingDates tradingDays storedDates).Nodup :=
    Finset.sort_nodup _ _
  refine ⟨dateChunks_flatten c hc _, ?_, dateChunks_disjoint c hc _ hnd, ?_⟩
  · intro x
    conv_rhs => rw [← dateChunks_flatten c hc (missingDates tradingDays storedDates)]
    exact List.mem_flatten.symm
  · intro cap tl
    cases tl with
    | nil => simp [groupTickers]
    | cons p rest =>
      obtain ⟨t, s⟩ := p
      simp [groupTickers, groupLoop_tickers]

/-- Witness for C3 at a concrete input: trading days 0,1,2, stored
day 1, chunk size 2; the single chunk is exactly the missing dates. -/
theorem schedule_partitions_missing_dates_witness :
    ((dateChunks 2 (missingDates ({0, 1, 2} : Finset Int) {1})).flatten =
      missingDates ({0, 1, 2} : Finset Int) {1}) ∧
    List.Pairwise List.Disjoint
      (dateChunks 2 (missingDates ({0, 1, 2} : Finset Int) {1})) :=
  ⟨(schedule_partitions_missing_dates {0, 1, 2} {1} 2 (by decide)).1,
    (schedule_partitions_missing_dates {0, 1, 2} {1} 2 (by decide)).2.2.1⟩

/-- C4: every group produced by the fill.py scheduler contains only
tickers whose input start date equals the group's start date and never
exceeds the cap; and 120 tickers sharing one start date with cap 50
yield exactly the group sizes 50, 50, 20. -/
theorem scheduler_groups_by_start_date {α β : Type} [DecidableEq β]
    (cap : Nat) (l : List (α × β)) (hcap : 0 < cap) :
    (∀ g s, (g, s) ∈ groupTickers cap l →
      (∀ t ∈ g, (t, s) ∈ l) ∧ g.length ≤ cap) ∧
    ((groupTickers 50 ((List.range 120).map (fun i => (i, 0)))).map
      (fun gs => gs.1.length) = [50, 50, 20]) := by
  constructor
  · intro g s hg
    cases l with
    | nil => simp [groupTickers] at hg
    | cons p rest =>
      obtain ⟨t, s'⟩ := p
      refine groupLoop_mem cap (fun a b => (a, b) ∈ (t, s') :: rest) hcap
        rest [t] s' ?_ ?_ ?_ g s hg
      · intro x hx
        have hx : x = t := List.mem_singleton.mp hx
        subst hx
        exact List.mem_cons_self _ _
      · intro q hq
        exact List.mem_cons_of_mem _ hq
      · simpa using hcap
  · decide

/-- Witness for C4 at a concrete input: three tickers sharing start
date 7 with cap 2. -/
theorem scheduler_groups_by_start_date_witness :
    (∀ g s, (g, s) ∈ groupTickers 2 [(10, 7), (11, 7), (12, 7)] →
      (∀ t ∈ g, (t, s) ∈ [(10, 7), (11, 7), (12, 7)]) ∧ g.length ≤ 2) ∧
    ((groupTickers 50 ((List.range 120).map (fun i => (i, 0)))).map
      (fun gs => gs.1.length) = [50, 50, 20]) :=
  scheduler_groups_by_start_date 2 [(10, 7), (11, 7), (12, 7)] (by decide)

/-- C7 as stated is refuted on the provider-fetch path: `flakyProvider`
fails transiently on its first attempt and succeeds from the second on,
so a retry bounded to 3 attempts recovers it, yet `fetch_chunk` of
fill.py (which carries no retry decorator) returns no rows for it — the
provider fetch is not retried. -/
theorem fetch_chunk_not_retried :
    retryStop3 flakyProvider = Except.ok [1] ∧ fetch_chunk flakyProvider = [] :=
  ⟨rfl, rfl⟩

/-- C7 amended: the retry decorator of `fetch_tickers_from_db` consults
its call at most 3 times (its outcome depends only on the first three
attempts) and recovers a call that fails twice then succeeds; provider
chunk fetches are not retried, but a failed chunk contributes nothing
while every other chunk's rows survive — a single chunk's failure never
aborts the run. -/
theorem retry_bound_and_failure_isolation :
    (∀ (E A : Type) (f g : Nat → Except E A),
      (∀ i, i < 3 → f i = g i) → retryStop3 f = retryStop3 g) ∧
    (∀ (E A : Type) (f : Nat → Except E A) (e e' : E) (a : A),
      f 0 = Except.error e → f 1 = Except.error e' → f 2 = Except.ok a →
      retryStop3 f = Except.ok a) ∧
    (∀ (E R : Type) (ps qs : List (Nat → Except E (List R)))
      (bad : Nat → Except E (List R)) (e : E),
      bad 0 = Except.error e →
      collect_chunks (ps ++ bad :: qs) = collect_chunks ps ++ collect_chunks qs) := by
  refine ⟨?_, ?_, ?_⟩
  · intro E A f g h
    have h0 := h 0 (by omega)
    have h1 := h 1 (by omega)
    have h2 := h 2 (by omega)
    simp only [retryStop3, h0, h1, h2]
  · intro E A f e e' a h0 h1 h2
    simp only [retryStop3, h0, h1, h2]
  · intro E R ps qs bad e hbad
    have hchunk : fetch_chunk bad = [] := by
      simp only [fetch_chunk, hbad]
    simp [collect_chunks, hchunk]

/-- Witness for C7's amended theorem at concrete providers. -/
theorem retry_bound_and_failure_isolation_witness :
    retryStop3 flakyProvider = retryStop3 cappedProvider ∧
    retryStop3 twiceFailing = Except.ok 7 ∧
    collect_chunks [goodP1, badP, goodP2] =
      collect_chunks [goodP1] ++ collect_chunks [goodP2] := by
  refine ⟨retry_bound_and_failure_isolation.1 Unit (List Nat)
      flakyProvider cappedProvider ?_,
    retry_bound_and_failure_isolation.2.1 Unit Nat twiceFailing () () 7
      rfl rfl rfl,
    retry_bound_and_failure_isolation.2.2 Unit Nat [goodP1] [goodP2] badP ()
      rfl⟩
  intro i hi
  interval_cases i <;> rfl

end TradeStack
